import Mathlib

/-!
Shallow embedding of the motor-os io-channel test harness
(src/src/bin/systest/src/channel_test.rs) and of the kernel process
statistics (src/src/bin/kernel/src/stats.rs), with theorems checking the
natural-language specification against them.

The io-channel transport itself (moto_ipc::io_channel: rings, buffer
pool, client/server endpoints) is not part of the shown sources; its
operational model below is built from the specification's description of
the ring protocol (single-producer single-consumer FIFO rings of bounded
capacity, non-blocking operations returning NotReady) and is exercised
exactly the way channel_test.rs drives it.
-/

namespace IoChannel

/-- Modelled from the spec: the error taxonomy of the io-channel surface
(`NotReady` transient, `NotAllowed` permission, connection-not-found
terminal). The io_channel implementation is not under the shown sources. -/
inductive ErrorCode where
  | NotReady
  | NotAllowed
  | NotFound
deriving DecidableEq

/-- Modelled from the spec: the fixed-size queue entry `{ id, command,
status, payload }`; the payload is reduced to the single buffer-token slot
the shown usage exercises (`payload.buffers()[0]`). -/
structure QueueEntry where
  id : Nat
  command : Nat
  status : Nat
  buffer : Nat
deriving DecidableEq

/-- Modelled from the spec: the state visible to one client/server pair of
the io-channel: the submission ring `sq` (client writes, server reads), the
completion ring `cq` (server writes, client reads), both bounded FIFO, the
single entry the server has dequeued and not yet completed (`held`), and
the client-side accounting that backs `is_empty` (ghost lists of submitted
and received ids, plus the outstanding counter). -/
structure SystemState where
  sqCap : Nat
  cqCap : Nat
  sq : List QueueEntry
  held : Option QueueEntry
  cq : List QueueEntry
  submittedIds : List Nat
  receivedIds : List Nat
  outstanding : Nat
deriving DecidableEq

/-- Modelled from the spec: `submit_sqe(entry) -> () | NotReady` writes into
the submission ring; `NotReady` means the ring is full. -/
def submit_sqe (e : QueueEntry) (s : SystemState) : Except ErrorCode SystemState :=
  if s.sqCap ≤ s.sq.length then .error .NotReady
  else .ok { s with
    sq := s.sq ++ [e],
    submittedIds := s.submittedIds ++ [e.id],
    outstanding := s.outstanding + 1 }

/-- Modelled from the spec: `get_cqe() -> Entry | NotReady`, the
non-blocking read of the next completion in FIFO order. -/
def get_cqe (s : SystemState) : Except ErrorCode (QueueEntry × SystemState) :=
  match s.cq with
  | [] => .error .NotReady
  | c :: rest => .ok (c, { s with
      cq := rest,
      receivedIds := s.receivedIds ++ [c.id],
      outstanding := s.outstanding - 1 })

/-- Modelled from the spec: `is_empty() -> bool`, true iff no entries are
submitted-but-not-yet-completed outstanding for this client. -/
def is_empty (s : SystemState) : Bool := s.outstanding == 0

/-- Modelled from the spec: `get_sqe() -> Entry | NotReady`, the server's
non-blocking read of the next submission; the dequeued entry becomes the
entry the server holds for completion. -/
def get_sqe (s : SystemState) : Except ErrorCode (QueueEntry × SystemState) :=
  match s.sq with
  | [] => .error .NotReady
  | e :: rest => .ok (e, { s with sq := rest, held := some e })

/-- Modelled from the spec: `complete_sqe(entry) -> () | NotReady` writes a
completion into the completion ring; `NotReady` means the ring is full and
nothing is changed. -/
def complete_sqe (e : QueueEntry) (s : SystemState) : Except ErrorCode SystemState :=
  if s.cqCap ≤ s.cq.length then .error .NotReady
  else .ok { s with cq := s.cq ++ [e] }

/-- The transformation server_loop in channel_test.rs applies to a dequeued
entry before completing it: `sqe.status = ErrorCode::Ok.into()`; the id is
left untouched. -/
def testHandler (e : QueueEntry) : QueueEntry := { e with status := 0 }

/-- One atomic step of the client/server system as channel_test.rs drives
it: a client submission, the server dequeuing one entry, the server
completing the entry it holds (after testHandler), or the client polling
one completion. -/
inductive Step where
  | submit (e : QueueEntry)
  | serverDeq
  | serverComplete
  | clientPoll
deriving DecidableEq

/-- Step semantics: a step that is not enabled (ring full/empty, or the
server already/not holding an entry) yields none. -/
def step : Step → SystemState → Option SystemState
  | .submit e, s =>
    match submit_sqe e s with
    | .ok s' => some s'
    | .error _ => none
  | .serverDeq, s =>
    match s.held, get_sqe s with
    | none, .ok (_, s') => some s'
    | _, _ => none
  | .serverComplete, s =>
    match s.held with
    | none => none
    | some h =>
      match complete_sqe (testHandler h) s with
      | .ok s' => some { s' with held := none }
      | .error _ => none
  | .clientPoll, s =>
    match get_cqe s with
    | .ok (_, s') => some s'
    | .error _ => none

/-- Run a trace of steps; the whole trace must be enabled. -/
def run (tr : List Step) (s : SystemState) : Option SystemState :=
  match tr with
  | [] => some s
  | st :: rest =>
    match step st s with
    | none => none
    | some s' => run rest s'

/-- The initial state of a freshly connected channel: both rings empty,
nothing held, nothing submitted or received. -/
def init (sqCap cqCap : Nat) : SystemState :=
  ⟨sqCap, cqCap, [], none, [], [], [], 0⟩

/-- Ids of the entry the server currently holds (zero or one). -/
def heldIds (s : SystemState) : List Nat :=
  match s.held with
  | none => []
  | some h => [h.id]

/-- System invariant: the submitted ids are exactly the received ids
followed by the ids still in flight (completion ring, server-held entry,
submission ring, newest last), and the outstanding counter counts the
in-flight entries. -/
def Inv (s : SystemState) : Prop :=
  s.submittedIds =
    s.receivedIds ++ s.cq.map QueueEntry.id ++ heldIds s ++ s.sq.map QueueEntry.id
  ∧ s.outstanding = s.cq.length + (heldIds s).length + s.sq.length

/-- Server-side processing of a submitted buffer, embedded from server_loop
in channel_test.rs (lines 104-115): read the block count from the low bits
of the id (`(sqe.id & 0xFFFF) as u8`, i.e. mod 65536 then mod 256), check
the buffer length is `num_blocks * 512` and every byte equals `num_blocks`
(the source's assert_eq calls), then overwrite every byte with
`num_blocks ^ 0xFF`. Bytes are Nat values below 256. -/
def server_process_buffer (id : Nat) (buf : List Nat) : Option (List Nat) :=
  let nb := (id % 65536) % 256
  if buf.length = nb * 512 ∧ ∀ b ∈ buf, b = nb then
    some (buf.map (fun _ => Nat.xor nb 255))
  else none

/-- The client-side buffer fill in client_loop of channel_test.rs: a
k-block buffer is k * 512 bytes, every byte set to `num_blocks as u8`. -/
def client_fill (k : Nat) : List Nat := List.replicate (k * 512) (k % 256)

/-- Modelled from the spec: names reserved for privileged channels; the
observed usage reserves the well-known system channel name. -/
def reserved_names : List String := ["sys-io"]

/-- Modelled from the spec: `Server::create(name)` fails with `NotAllowed`
if the name is reserved for privileged channels the caller lacks rights to,
or if the name is already bound. -/
def server_create (privileged : Bool) (name : String) (bound : List String) :
    Except ErrorCode Unit :=
  if name ∈ reserved_names ∧ privileged = false then .error .NotAllowed
  else if name ∈ bound then .error .NotAllowed
  else .ok ()

/-- Modelled from the spec: `Client::connect(name)` fails immediately (a
terminal connection-not-found error, not the transient `NotReady`) when no
server channel with that name exists. -/
def client_connect (name : String) (listening : List String) :
    Except ErrorCode Unit :=
  if name ∈ listening then .ok () else .error .NotFound

/-- Write a list of completions into the completion ring one complete_sqe
at a time; all writes must succeed. -/
def completeAll (es : List QueueEntry) (s : SystemState) : Option SystemState :=
  match es with
  | [] => some s
  | e :: rest =>
    match complete_sqe e s with
    | .ok s' => completeAll rest s'
    | .error _ => none

/-- Successive successful get_cqe calls, up to the given fuel, collecting
the entries in the order they are returned. -/
def drainAll : Nat → SystemState → List QueueEntry
  | 0, _ => []
  | Nat.succ n, s =>
    match get_cqe s with
    | .error _ => []
    | .ok (c, s') => c :: drainAll n s'

end IoChannel

namespace Stats

/-- Modulus of the u64 atomic counters in stats.rs. -/
def W : Nat := 2 ^ 64

/-- The four thread counters touched by KProcessStats::on_thread_added and
KProcessStats::on_thread_exited in stats.rs: the per-process
total_threads/active_threads pair and the mirrored SYSTEM_STATS pair.
Values are u64, represented as Nat reduced mod 2^64 by every update. -/
structure ThreadCounters where
  total_threads : Nat
  active_threads : Nat
  sys_total_threads : Nat
  sys_active_threads : Nat
deriving DecidableEq

/-- KProcessStats::on_thread_added: fetch_add(1) on the per-process
active_threads and total_threads and on both SYSTEM_STATS mirrors
(wrapping u64 arithmetic). -/
def on_thread_added (s : ThreadCounters) : ThreadCounters :=
  { total_threads := (s.total_threads + 1) % W
    active_threads := (s.active_threads + 1) % W
    sys_total_threads := (s.sys_total_threads + 1) % W
    sys_active_threads := (s.sys_active_threads + 1) % W }

/-- KProcessStats::on_thread_exited: fetch_sub(1) on the per-process
active_threads and on the SYSTEM_STATS active_threads only; the
total_threads counters are not decremented. Wrapping u64 subtraction is
modelled as adding 2^64 - 1 mod 2^64. -/
def on_thread_exited (s : ThreadCounters) : ThreadCounters :=
  { s with
    active_threads := (s.active_threads + (W - 1)) % W
    sys_active_threads := (s.sys_active_threads + (W - 1)) % W }

/-- A thread lifecycle event observed by a KProcessStats record. -/
inductive ThreadEvent where
  | added
  | exited
deriving DecidableEq

/-- Apply one thread event to the counters. -/
def applyEvent (s : ThreadCounters) : ThreadEvent → ThreadCounters
  | .added => on_thread_added s
  | .exited => on_thread_exited s

/-- Apply a sequence of thread events left to right. -/
def runEvents (s : ThreadCounters) : List ThreadEvent → ThreadCounters
  | [] => s
  | e :: rest => runEvents (applyEvent s e) rest

/-- validSeq k evs: with k threads currently added-and-not-exited, every
exit in evs is preceded by a matching add ("no thread exits before being
added"). -/
def validSeq : Nat → List ThreadEvent → Bool
  | _, [] => true
  | k, .added :: rest => validSeq (k + 1) rest
  | k, .exited :: rest => k != 0 && validSeq (k - 1) rest

/-- Number of added events in a sequence. -/
def countAdds : List ThreadEvent → Nat
  | [] => 0
  | .added :: rest => countAdds rest + 1
  | .exited :: rest => countAdds rest

/-- The destination fields of KProcessStats::into_v1 that receive the
debug name: the 32-byte debug_name_bytes array (as a byte list) and the
u8 debug_name_len. -/
structure ProcessStatsV1Name where
  debug_name_bytes : List Nat
  debug_name_len : Nat
deriving DecidableEq

/-- The debug-name portion of KProcessStats::into_v1 in stats.rs: the name
is truncated to its first 32 bytes when longer, copy_nonoverlapping copies
exactly that many bytes over the start of dest.debug_name_bytes (bytes past
the copied length keep their previous contents), and debug_name_len is set
to the copied length as u8. -/
def into_v1_debug_name (debug_name : List Nat) (dest : ProcessStatsV1Name) :
    ProcessStatsV1Name :=
  let dn := if debug_name.length > 32 then debug_name.take 32 else debug_name
  { debug_name_bytes := dn ++ dest.debug_name_bytes.drop dn.length
    debug_name_len := dn.length % 256 }

end Stats

namespace IoChannel

theorem submit_inv {e : QueueEntry} {s s' : SystemState}
    (h : submit_sqe e s = .ok s') (hinv : Inv s) : Inv s' := by
  obtain ⟨h1, h2⟩ := hinv
  unfold submit_sqe at h
  split at h
  · cases h
  · simp only [Except.ok.injEq] at h
    subst h
    cases hh : s.held with
    | none =>
      simp only [Inv, heldIds, hh] at h1 h2 ⊢
      constructor
      · rw [h1]; simp [List.append_assoc]
      · simp at h2 ⊢; omega
    | some x =>
      simp only [Inv, heldIds, hh] at h1 h2 ⊢
      constructor
      · rw [h1]; simp [List.append_assoc]
      · simp at h2 ⊢; omega

theorem deq_inv {s : SystemState} {c : QueueEntry} {s' : SystemState}
    (hh : s.held = none) (h : get_sqe s = .ok (c, s')) (hinv : Inv s) : Inv s' := by
  obtain ⟨h1, h2⟩ := hinv
  unfold get_sqe at h
  cases hsq : s.sq with
  | nil => rw [hsq] at h; cases h
  | cons e rest =>
    rw [hsq] at h
    simp only [Except.ok.injEq, Prod.mk.injEq] at h
    obtain ⟨rfl, rfl⟩ := h
    rw [hsq] at h1 h2
    simp only [Inv, heldIds, hh] at h1 h2 ⊢
    constructor
    · rw [h1]; simp [List.append_assoc]
    · simp at h2 ⊢; omega

theorem complete_step_inv {s : SystemState} {e : QueueEntry} {s₁ : SystemState}
    (hh : s.held = some e) (h : complete_sqe (testHandler e) s = .ok s₁)
    (hinv : Inv s) : Inv { s₁ with held := none } := by
  obtain ⟨h1, h2⟩ := hinv
  unfold complete_sqe at h
  split at h
  · cases h
  · simp only [Except.ok.injEq] at h
    subst h
    simp only [Inv, heldIds, hh] at h1 h2 ⊢
    constructor
    · rw [h1]
      have he : (testHandler e).id = e.id := rfl
      simp [he, List.append_assoc]
    · simp at h2 ⊢; omega

theorem poll_inv {s : SystemState} {c : QueueEntry} {s' : SystemState}
    (h : get_cqe s = .ok (c, s')) (hinv : Inv s) : Inv s' := by
  obtain ⟨h1, h2⟩ := hinv
  unfold get_cqe at h
  cases hcq : s.cq with
  | nil => rw [hcq] at h; cases h
  | cons c₀ rest =>
    rw [hcq] at h
    simp only [Except.ok.injEq, Prod.mk.injEq] at h
    obtain ⟨rfl, rfl⟩ := h
    rw [hcq] at h1 h2
    cases hh : s.held with
    | none =>
      simp only [Inv, heldIds, hh] at h1 h2 ⊢
      constructor
      · rw [h1]; simp [List.append_assoc]
      · simp at h2 ⊢; omega
    | some x =>
      simp only [Inv, heldIds, hh] at h1 h2 ⊢
      constructor
      · rw [h1]; simp [List.append_assoc]
      · simp at h2 ⊢; omega

theorem step_inv {st : Step} {s s' : SystemState}
    (h : step st s = some s') (hinv : Inv s) : Inv s' := by
  cases st with
  | submit e =>
    simp only [step] at h
    cases he : submit_sqe e s with
    | error err => rw [he] at h; cases h
    | ok s₁ =>
      rw [he] at h
      simp only [Option.some.injEq] at h
      subst h
      exact submit_inv he hinv
  | serverDeq =>
    simp only [step] at h
    cases hh : s.held with
    | some e => rw [hh] at h; cases h
    | none =>
      rw [hh] at h
      cases he : get_sqe s with
      | error err => rw [he] at h; cases h
      | ok p =>
        rw [he] at h
        simp only [Option.some.injEq] at h
        subst h
        exact deq_inv hh he hinv
  | serverComplete =>
    simp only [step] at h
    split at h
    · cases h
    next e hh =>
      split at h
      next s₁ he =>
        simp only [Option.some.injEq] at h
        subst h
        exact complete_step_inv hh he hinv
      next err he => cases h
  | clientPoll =>
    simp only [step] at h
    cases he : get_cqe s with
    | error err => rw [he] at h; cases h
    | ok p =>
      rw [he] at h
      simp only [Option.some.injEq] at h
      subst h
      exact poll_inv he hinv

theorem run_inv {tr : List Step} {s s' : SystemState}
    (h : run tr s = some s') (hinv : Inv s) : Inv s' := by
  induction tr generalizing s with
  | nil =>
    unfold run at h
    simp only [Option.some.injEq] at h
    subst h
    exact hinv
  | cons st rest ih =>
    unfold run at h
    cases hst : step st s with
    | none => rw [hst] at h; cases h
    | some s₁ =>
      rw [hst] at h
      exact ih h (step_inv hst hinv)

theorem init_inv (a b : Nat) : Inv (init a b) := by
  constructor <;> rfl

end IoChannel

namespace IoChannel

/-- C1: conservation law — for every trace the system permits (submissions
the client makes via submit_sqe, drained via get_cqe, with the server
dequeuing and completing in between, ids distinct or repeated), once
is_empty reports true the sum of all submitted entry ids equals the sum of
all completed entry ids. -/
theorem conservation_law (a b : Nat) (tr : List Step) (s : SystemState)
    (hrun : run tr (init a b) = some s) (hempty : is_empty s = true) :
    s.submittedIds.sum = s.receivedIds.sum := by
  obtain ⟨h1, h2⟩ := run_inv hrun (init_inv a b)
  have hout : s.outstanding = 0 := by
    unfold is_empty at hempty
    simpa using hempty
  rw [hout] at h2
  have hcq : s.cq = [] := List.length_eq_zero.mp (by omega)
  have hsq : s.sq = [] := List.length_eq_zero.mp (by omega)
  have hheld : heldIds s = [] := List.length_eq_zero.mp (by omega)
  rw [hcq, hsq, hheld] at h1
  simp only [List.map_nil, List.append_nil] at h1
  rw [h1]

/-- Witness for C1 at a concrete trace: one submission with id 7, dequeued,
completed and polled; the drained state reports empty and the submitted and
received id sums agree. -/
theorem conservation_law_witness :
    run [Step.submit ⟨7, 0, 0, 0⟩, Step.serverDeq, Step.serverComplete, Step.clientPoll]
        (init 2 2) = some ⟨2, 2, [], none, [], [7], [7], 0⟩
    ∧ is_empty ⟨2, 2, [], none, [], [7], [7], 0⟩ = true
    ∧ (SystemState.mk 2 2 [] none [] [7] [7] 0).submittedIds.sum
        = (SystemState.mk 2 2 [] none [] [7] [7] 0).receivedIds.sum :=
  ⟨by decide, by decide,
    conservation_law 2 2
      [Step.submit ⟨7, 0, 0, 0⟩, Step.serverDeq, Step.serverComplete, Step.clientPoll]
      ⟨2, 2, [], none, [], [7], [7], 0⟩ (by decide) (by decide)⟩

/-- C4: drain correctness — in every reachable client state, is_empty
returns true if and only if the number of entries submitted via submit_sqe
and not yet received back via get_cqe is zero (equivalently, the list of
submitted ids and the list of received ids have the same length). -/
theorem drain_correctness (a b : Nat) (tr : List Step) (s : SystemState)
    (hrun : run tr (init a b) = some s) :
    is_empty s = true ↔ s.submittedIds.length = s.receivedIds.length := by
  obtain ⟨h1, h2⟩ := run_inv hrun (init_inv a b)
  have hlen : s.submittedIds.length =
      s.receivedIds.length + (s.cq.length + (heldIds s).length + s.sq.length) := by
    rw [h1]
    simp [List.length_append, List.length_map]
    omega
  unfold is_empty
  simp only [beq_iff_eq]
  omega

/-- Witness for C4 at a concrete trace: after two submissions and one
server dequeue nothing has been received, and is_empty is accordingly
false while the submitted/received counts differ. -/
theorem drain_correctness_witness :
    run [Step.submit ⟨3, 0, 0, 0⟩, Step.submit ⟨4, 0, 0, 0⟩, Step.serverDeq] (init 4 4)
        = some ⟨4, 4, [⟨4, 0, 0, 0⟩], some ⟨3, 0, 0, 0⟩, [], [3, 4], [], 2⟩
    ∧ (is_empty ⟨4, 4, [⟨4, 0, 0, 0⟩], some ⟨3, 0, 0, 0⟩, [], [3, 4], [], 2⟩ = true
        ↔ (SystemState.mk 4 4 [⟨4, 0, 0, 0⟩] (some ⟨3, 0, 0, 0⟩) [] [3, 4] [] 2).submittedIds.length
            = (SystemState.mk 4 4 [⟨4, 0, 0, 0⟩] (some ⟨3, 0, 0, 0⟩) [] [3, 4] [] 2).receivedIds.length) :=
  ⟨by decide,
    drain_correctness 4 4 [Step.submit ⟨3, 0, 0, 0⟩, Step.submit ⟨4, 0, 0, 0⟩, Step.serverDeq]
      ⟨4, 4, [⟨4, 0, 0, 0⟩], some ⟨3, 0, 0, 0⟩, [], [3, 4], [], 2⟩ (by decide)⟩

/-- C3: id echo invariant — the completion the server writes for a
dequeued entry keeps its id (the test server only sets the status field),
and the channel delivers entries verbatim, so in every reachable state the
ids the client has received back are exactly an initial segment of the ids
it submitted, id for id. -/
theorem id_echo (a b : Nat) (e : QueueEntry) (tr : List Step) (s : SystemState)
    (hrun : run tr (init a b) = some s) :
    (testHandler e).id = e.id ∧ s.receivedIds <+: s.submittedIds := by
  obtain ⟨h1, _⟩ := run_inv hrun (init_inv a b)
  refine ⟨rfl, ?_⟩
  rw [h1, List.append_assoc, List.append_assoc]
  exact List.prefix_append _ _

/-- Witness for C3 at a concrete trace: the entry with id 9 travels
through submit, dequeue, complete and poll; the received id list [9] is a
prefix of the submitted id list [9], and the handler keeps id 9. -/
theorem id_echo_witness :
    run [Step.submit ⟨9, 1, 2, 3⟩, Step.serverDeq, Step.serverComplete, Step.clientPoll]
        (init 2 2) = some ⟨2, 2, [], none, [], [9], [9], 0⟩
    ∧ ((testHandler ⟨9, 1, 2, 3⟩).id = (QueueEntry.mk 9 1 2 3).id
        ∧ (SystemState.mk 2 2 [] none [] [9] [9] 0).receivedIds
            <+: (SystemState.mk 2 2 [] none [] [9] [9] 0).submittedIds) :=
  ⟨by decide,
    id_echo 2 2 ⟨9, 1, 2, 3⟩
      [Step.submit ⟨9, 1, 2, 3⟩, Step.serverDeq, Step.serverComplete, Step.clientPoll]
      ⟨2, 2, [], none, [], [9], [9], 0⟩ (by decide)⟩

end IoChannel


namespace IoChannel

theorem completeAll_cq : ∀ (es : List QueueEntry) (s s' : SystemState),
    completeAll es s = some s' → s'.cq = s.cq ++ es := by
  intro es
  induction es with
  | nil =>
    intro s s' h
    unfold completeAll at h
    simp only [Option.some.injEq] at h
    subst h
    simp
  | cons e rest ih =>
    intro s s' h
    unfold completeAll at h
    cases he : complete_sqe e s with
    | error err => rw [he] at h; cases h
    | ok s₁ =>
      rw [he] at h
      have h1 := ih _ _ h
      unfold complete_sqe at he
      split at he
      · cases he
      · simp only [Except.ok.injEq] at he
        subst he
        rw [h1]
        simp

theorem drainAll_len : ∀ (n : Nat) (s : SystemState), s.cq.length = n → drainAll n s = s.cq := by
  intro n
  induction n with
  | zero =>
    intro s h
    have hcq : s.cq = [] := List.length_eq_zero.mp h
    rw [hcq]
    rfl
  | succ n ih =>
    intro s h
    cases hcq : s.cq with
    | nil => rw [hcq] at h; simp at h
    | cons c rest =>
      rw [hcq] at h
      have hrest : rest.length = n := by simpa using h
      have hget : get_cqe s = .ok (c, { s with cq := rest, receivedIds := s.receivedIds ++ [c.id], outstanding := s.outstanding - 1 }) := by
        unfold get_cqe
        rw [hcq]
      have hd : drainAll (n + 1) s = c :: drainAll n { s with cq := rest, receivedIds := s.receivedIds ++ [c.id], outstanding := s.outstanding - 1 } := by
        conv_lhs => rw [drainAll]
        rw [hget]
      have hrec : ({ s with cq := rest, receivedIds := s.receivedIds ++ [c.id], outstanding := s.outstanding - 1 } : SystemState).cq.length = n := hrest
      rw [hd, ih _ hrec]

/-- C5: completion ordering — completions written into the completion ring
by successive successful complete_sqe calls are returned by the client's
successive successful get_cqe calls in exactly the order the server wrote
them (FIFO delivery on the completion ring). -/
theorem completion_fifo (es : List QueueEntry) (s s' : SystemState)
    (hcq : s.cq = []) (hall : completeAll es s = some s') :
    drainAll s'.cq.length s' = es := by
  have h1 := completeAll_cq es s s' hall
  rw [hcq] at h1
  simp only [List.nil_append] at h1
  rw [drainAll_len s'.cq.length s' rfl, h1]

/-- Witness for C5: two completions written in order 1 then 2 are drained
as [1, 2]. -/
theorem completion_fifo_witness :
    (init 4 4).cq = []
    ∧ completeAll [⟨1, 0, 0, 0⟩, ⟨2, 0, 0, 0⟩] (init 4 4)
        = some ⟨4, 4, [], none, [⟨1, 0, 0, 0⟩, ⟨2, 0, 0, 0⟩], [], [], 0⟩
    ∧ drainAll (SystemState.mk 4 4 [] none [⟨1, 0, 0, 0⟩, ⟨2, 0, 0, 0⟩] [] [] 0).cq.length
        ⟨4, 4, [], none, [⟨1, 0, 0, 0⟩, ⟨2, 0, 0, 0⟩], [], [], 0⟩
        = [⟨1, 0, 0, 0⟩, ⟨2, 0, 0, 0⟩] :=
  ⟨by decide, by decide,
    completion_fifo [⟨1, 0, 0, 0⟩, ⟨2, 0, 0, 0⟩] (init 4 4)
      ⟨4, 4, [], none, [⟨1, 0, 0, 0⟩, ⟨2, 0, 0, 0⟩], [], [], 0⟩ (by decide) (by decide)⟩

/-- C6: completion-ring backpressure atomicity — when the completion ring
is full, complete_sqe returns NotReady and (being a pure function that
returns only the error) leaves the ring and the held entry unchanged; after
the client drains one completion via get_cqe, retrying complete_sqe with
the same entry succeeds, appends that entry, and the submission ring is
untouched throughout (no re-dequeue, no lost entry). -/
theorem complete_sqe_backpressure (s : SystemState) (e : QueueEntry)
    (hfull : s.cq.length = s.cqCap) (hpos : 0 < s.cqCap) :
    complete_sqe e s = .error .NotReady ∧
    ∃ c s' s'', get_cqe s = .ok (c, s') ∧ complete_sqe e s' = .ok s'' ∧
      s''.sq = s.sq ∧ s''.held = s.held ∧ s''.cq = s'.cq ++ [e] := by
  constructor
  · unfold complete_sqe
    rw [if_pos (le_of_eq hfull.symm)]
  · cases hcq : s.cq with
    | nil =>
      rw [hcq] at hfull
      simp at hfull
      omega
    | cons c rest =>
      have hlen : rest.length + 1 = s.cqCap := by
        rw [hcq] at hfull
        simpa using hfull
      have hget : get_cqe s = .ok (c, { s with cq := rest, receivedIds := s.receivedIds ++ [c.id], outstanding := s.outstanding - 1 }) := by
        unfold get_cqe
        rw [hcq]
      have hcomp : complete_sqe e { s with cq := rest, receivedIds := s.receivedIds ++ [c.id], outstanding := s.outstanding - 1 } = .ok { s with cq := rest ++ [e], receivedIds := s.receivedIds ++ [c.id], outstanding := s.outstanding - 1 } := by
        unfold complete_sqe
        split
        next hc =>
          exact absurd hc (by simp; omega)
        next hc => rfl
      exact ⟨c, _, _, hget, hcomp, rfl, rfl, rfl⟩

/-- Witness for C6 at a concrete full ring of capacity one. -/
theorem complete_sqe_backpressure_witness :
    (SystemState.mk 1 1 [] none [⟨5, 0, 0, 0⟩] [5] [] 1).cq.length
        = (SystemState.mk 1 1 [] none [⟨5, 0, 0, 0⟩] [5] [] 1).cqCap
    ∧ 0 < (SystemState.mk 1 1 [] none [⟨5, 0, 0, 0⟩] [5] [] 1).cqCap
    ∧ (complete_sqe ⟨8, 0, 0, 0⟩ ⟨1, 1, [], none, [⟨5, 0, 0, 0⟩], [5], [], 1⟩
          = .error .NotReady ∧
        ∃ c s' s'', get_cqe ⟨1, 1, [], none, [⟨5, 0, 0, 0⟩], [5], [], 1⟩ = .ok (c, s') ∧
          complete_sqe ⟨8, 0, 0, 0⟩ s' = .ok s'' ∧
          s''.sq = (SystemState.mk 1 1 [] none [⟨5, 0, 0, 0⟩] [5] [] 1).sq ∧
          s''.held = (SystemState.mk 1 1 [] none [⟨5, 0, 0, 0⟩] [5] [] 1).held ∧
          s''.cq = s'.cq ++ [⟨8, 0, 0, 0⟩]) :=
  ⟨rfl, by decide,
    complete_sqe_backpressure ⟨1, 1, [], none, [⟨5, 0, 0, 0⟩], [5], [], 1⟩ ⟨8, 0, 0, 0⟩
      rfl (by decide)⟩

/-- C8: backpressure recovery — submit_sqe returns NotReady exactly while
the submission ring stays full, and as soon as the server makes progress by
dequeuing one entry (which waiting on the server handle and draining
completions is there to let happen), the retried submit_sqe of the same
entry succeeds, so no entry is permanently starved. -/
theorem backpressure_recovery (s : SystemState) (e : QueueEntry)
    (hfull : s.sq.length = s.sqCap) (hpos : 0 < s.sqCap) (hheld : s.held = none) :
    submit_sqe e s = .error .NotReady ∧
    ∃ s' s'', step .serverDeq s = some s' ∧ submit_sqe e s' = .ok s'' := by
  constructor
  · unfold submit_sqe
    rw [if_pos (le_of_eq hfull.symm)]
  · cases hsq : s.sq with
    | nil =>
      rw [hsq] at hfull
      simp at hfull
      omega
    | cons e₀ rest =>
      have hlen : rest.length + 1 = s.sqCap := by
        rw [hsq] at hfull
        simpa using hfull
      have hdeq : step .serverDeq s = some { s with sq := rest, held := some e₀ } := by
        simp only [step]
        rw [hheld]
        unfold get_sqe
        rw [hsq]
      have hsub : submit_sqe e { s with sq := rest, held := some e₀ } = .ok { s with sq := rest ++ [e], held := some e₀, submittedIds := s.submittedIds ++ [e.id], outstanding := s.outstanding + 1 } := by
        unfold submit_sqe
        split
        next hc =>
          exact absurd hc (by simp; omega)
        next hc => rfl
      exact ⟨_, _, hdeq, hsub⟩

/-- Witness for C8 at a concrete full submission ring of capacity one. -/
theorem backpressure_recovery_witness :
    (SystemState.mk 1 2 [⟨3, 0, 0, 0⟩] none [] [3] [] 1).sq.length
        = (SystemState.mk 1 2 [⟨3, 0, 0, 0⟩] none [] [3] [] 1).sqCap
    ∧ 0 < (SystemState.mk 1 2 [⟨3, 0, 0, 0⟩] none [] [3] [] 1).sqCap
    ∧ (SystemState.mk 1 2 [⟨3, 0, 0, 0⟩] none [] [3] [] 1).held = none
    ∧ (submit_sqe ⟨4, 0, 0, 0⟩ ⟨1, 2, [⟨3, 0, 0, 0⟩], none, [], [3], [], 1⟩
          = .error .NotReady ∧
        ∃ s' s'', step .serverDeq ⟨1, 2, [⟨3, 0, 0, 0⟩], none, [], [3], [], 1⟩ = some s' ∧
          submit_sqe ⟨4, 0, 0, 0⟩ s' = .ok s'') :=
  ⟨rfl, by decide, rfl,
    backpressure_recovery ⟨1, 2, [⟨3, 0, 0, 0⟩], none, [], [3], [], 1⟩ ⟨4, 0, 0, 0⟩
      rfl (by decide) rfl⟩

/-- C7: reserved-name and missing-server enforcement — creating the
reserved "sys-io" channel without privilege fails with the terminal
NotAllowed (not NotReady), and connecting to a name with no listening
server fails immediately with the terminal connection-not-found error,
which is distinct from the transient NotReady. -/
theorem reserved_name_enforcement (bound : List String) (name : String)
    (listening : List String) (h : name ∉ listening) :
    server_create false "sys-io" bound = .error .NotAllowed ∧
    client_connect name listening = .error .NotFound ∧
    ErrorCode.NotFound ≠ ErrorCode.NotReady := by
  refine ⟨?_, ?_, by decide⟩
  · unfold server_create
    rw [if_pos ⟨by simp [reserved_names], rfl⟩]
  · unfold client_connect
    rw [if_neg h]

/-- Witness for C7: no server is listening on "nosuchname". -/
theorem reserved_name_enforcement_witness :
    "nosuchname" ∉ ([] : List String)
    ∧ (server_create false "sys-io" ["other"] = .error .NotAllowed ∧
        client_connect "nosuchname" [] = .error .NotFound ∧
        ErrorCode.NotFound ≠ ErrorCode.NotReady) :=
  ⟨by simp, reserved_name_enforcement ["other"] "nosuchname" [] (by simp)⟩

/-- C2: transform round-trip — for every block count k with 1 ≤ k ≤ 10,
the k-block buffer the client fills with byte k (as client_loop does, under
an id whose low 16 bits hold k) passes the server's checks and comes back
with every byte equal to k XOR 0xFF, and the buffer's byte length is
k * 512. -/
theorem transform_round_trip (iter k : Nat) (h1 : 1 ≤ k) (h2 : k ≤ 10) :
    server_process_buffer (iter * 2 ^ 32 + k) (client_fill k)
        = some (List.replicate (k * 512) (Nat.xor k 255)) ∧
    (client_fill k).length = k * 512 := by
  have hmod : (iter * 2 ^ 32 + k) % 65536 % 256 = k := by
    have hrw : iter * 2 ^ 32 + k = k + (iter * 65536) * 65536 := by ring
    rw [hrw, Nat.add_mul_mod_self_right]
    rw [Nat.mod_eq_of_lt (by omega : k < 65536), Nat.mod_eq_of_lt (by omega : k < 256)]
  have hk : k % 256 = k := Nat.mod_eq_of_lt (by omega)
  constructor
  · simp only [server_process_buffer, client_fill, hmod, hk]
    rw [if_pos ⟨by simp, fun b hb => List.eq_of_mem_replicate hb⟩]
    simp [List.map_replicate]
  · unfold client_fill
    simp

/-- Witness for C2 at block count one: the 512-byte buffer of 0x01 bytes
comes back as 512 bytes of 0xFE. -/
theorem transform_round_trip_witness :
    1 ≤ 1 ∧ 1 ≤ 10
    ∧ (server_process_buffer (0 * 2 ^ 32 + 1) (client_fill 1)
          = some (List.replicate (1 * 512) (Nat.xor 1 255)) ∧
        (client_fill 1).length = 1 * 512) :=
  ⟨by decide, by decide, transform_round_trip 0 1 (by decide) (by decide)⟩

end IoChannel

namespace Stats

theorem W_pos : 0 < W := by
  unfold W
  positivity

theorem sub_one_mod (x : Nat) (hx1 : 1 ≤ x) (hxW : x < W) : (x + (W - 1)) % W = x - 1 := by
  have hW : 0 < W := W_pos
  have hx : x + (W - 1) = W + (x - 1) := by omega
  rw [hx, Nat.add_mod_left, Nat.mod_eq_of_lt (by omega)]

set_option maxRecDepth 4096 in
theorem runEvents_bound : ∀ (evs : List ThreadEvent) (k t a st sa : Nat),
    validSeq k evs = true → k ≤ a → a ≤ t → k ≤ sa → sa ≤ st →
    t + countAdds evs < W → st + countAdds evs < W →
    (runEvents ⟨t, a, st, sa⟩ evs).active_threads ≤ (runEvents ⟨t, a, st, sa⟩ evs).total_threads ∧
    (runEvents ⟨t, a, st, sa⟩ evs).sys_active_threads ≤ (runEvents ⟨t, a, st, sa⟩ evs).sys_total_threads := by
  intro evs
  induction evs with
  | nil =>
    intro k t a st sa _ _ hat _ hsast _ _
    exact ⟨hat, hsast⟩
  | cons ev rest ih =>
    intro k t a st sa hv hka hat hksa hsast hbt hbst
    cases ev with
    | added =>
      unfold validSeq at hv
      unfold countAdds at hbt hbst
      have ht : (t + 1) % W = t + 1 := Nat.mod_eq_of_lt (by omega)
      have ha : (a + 1) % W = a + 1 := Nat.mod_eq_of_lt (by omega)
      have hst : (st + 1) % W = st + 1 := Nat.mod_eq_of_lt (by omega)
      have hsa : (sa + 1) % W = sa + 1 := Nat.mod_eq_of_lt (by omega)
      simp only [runEvents, applyEvent, on_thread_added]
      rw [ht, ha, hst, hsa]
      exact ih (k + 1) (t + 1) (a + 1) (st + 1) (sa + 1) hv (by omega) (by omega)
        (by omega) (by omega) (by omega) (by omega)
    | exited =>
      unfold validSeq at hv
      simp only [Bool.and_eq_true, bne_iff_ne, ne_eq] at hv
      obtain ⟨hk0, hv⟩ := hv
      unfold countAdds at hbt hbst
      have hk : 1 ≤ k := Nat.one_le_iff_ne_zero.mpr hk0
      have ha : (a + (W - 1)) % W = a - 1 := sub_one_mod a (by omega) (by omega)
      have hsa2 : (sa + (W - 1)) % W = sa - 1 := sub_one_mod sa (by omega) (by omega)
      simp only [runEvents, applyEvent, on_thread_exited]
      rw [ha, hsa2]
      exact ih (k - 1) t (a - 1) st (sa - 1) hv (by omega) (by omega)
        (by omega) (by omega) (by omega) (by omega)

/-- C9: thread-count invariant — for every KProcessStats, after any
sequence of on_thread_added and on_thread_exited calls in which no thread
exits before being added, active_threads is at most total_threads, both for
the per-process counters (which start at zero) and for the mirrored
SYSTEM_STATS counters (which start at any values with active at most
total, e.g. num_cpus and num_cpus as stats::init sets them), because
on_thread_added increments both counters and on_thread_exited decrements
only active_threads. The bounds keep the u64 counters from wrapping. -/
theorem thread_count_invariant (evs : List ThreadEvent) (st0 sa0 : Nat)
    (hv : validSeq 0 evs = true) (hss : sa0 ≤ st0)
    (hb1 : countAdds evs < W) (hb2 : st0 + countAdds evs < W) :
    (runEvents ⟨0, 0, st0, sa0⟩ evs).active_threads
        ≤ (runEvents ⟨0, 0, st0, sa0⟩ evs).total_threads ∧
    (runEvents ⟨0, 0, st0, sa0⟩ evs).sys_active_threads
        ≤ (runEvents ⟨0, 0, st0, sa0⟩ evs).sys_total_threads :=
  runEvents_bound evs 0 0 0 st0 sa0 hv (Nat.le_refl 0) (Nat.le_refl 0)
    (Nat.zero_le _) hss (by omega) hb2

/-- Witness for C9: two threads added and one exited, with the system
counters starting at 4 active / 4 total. -/
theorem thread_count_invariant_witness :
    validSeq 0 [ThreadEvent.added, ThreadEvent.added, ThreadEvent.exited] = true
    ∧ (4 : Nat) ≤ 4
    ∧ countAdds [ThreadEvent.added, ThreadEvent.added, ThreadEvent.exited] < W
    ∧ 4 + countAdds [ThreadEvent.added, ThreadEvent.added, ThreadEvent.exited] < W
    ∧ ((runEvents ⟨0, 0, 4, 4⟩ [ThreadEvent.added, ThreadEvent.added, ThreadEvent.exited]).active_threads
          ≤ (runEvents ⟨0, 0, 4, 4⟩ [ThreadEvent.added, ThreadEvent.added, ThreadEvent.exited]).total_threads
        ∧ (runEvents ⟨0, 0, 4, 4⟩ [ThreadEvent.added, ThreadEvent.added, ThreadEvent.exited]).sys_active_threads
          ≤ (runEvents ⟨0, 0, 4, 4⟩ [ThreadEvent.added, ThreadEvent.added, ThreadEvent.exited]).sys_total_threads) :=
  ⟨by decide, by decide, by decide, by decide,
    thread_count_invariant [ThreadEvent.added, ThreadEvent.added, ThreadEvent.exited] 4 4
      (by decide) (by decide) (by decide) (by decide)⟩

/-- C10: debug-name truncation — KProcessStats::into_v1 copies exactly
min(n, 32) bytes of an n-byte debug name into the destination, sets
debug_name_len to min(n, 32) (which never exceeds 32), and leaves the
destination bytes past the copied prefix untouched. -/
theorem debug_name_truncation (name : List Nat) (dest : ProcessStatsV1Name) :
    (into_v1_debug_name name dest).debug_name_len = min name.length 32 ∧
    (into_v1_debug_name name dest).debug_name_len ≤ 32 ∧
    (into_v1_debug_name name dest).debug_name_bytes.take (min name.length 32)
        = name.take (min name.length 32) ∧
    (into_v1_debug_name name dest).debug_name_bytes.drop (min name.length 32)
        = dest.debug_name_bytes.drop (min name.length 32) := by
  simp only [into_v1_debug_name]
  by_cases hl : name.length > 32
  · rw [if_pos hl]
    have hdn : (name.take 32).length = 32 := by
      rw [List.length_take]
      omega
    have hmin : min name.length 32 = 32 := by omega
    refine ⟨?_, ?_, ?_, ?_⟩
    · rw [hdn, hmin]
    · rw [hdn]
    · rw [hmin, List.take_left' hdn]
    · rw [hmin, List.drop_left' hdn, hdn]
  · rw [if_neg hl]
    have hmin : min name.length 32 = name.length := by omega
    refine ⟨?_, ?_, ?_, ?_⟩
    · rw [hmin]
      exact Nat.mod_eq_of_lt (by omega)
    · have := Nat.mod_le name.length 256
      omega
    · rw [hmin, List.take_left, List.take_length]
    · rw [hmin, List.drop_left]

end Stats
